import Mathlib

/-!
Shallow embedding of the core of `src/src/main.rs` (a wasm text editor):
the input translator in `App::window_event`, and — modelled from the spec,
since the corresponding source file is not present under `src/` — the
selection-aware line renderer.
-/

set_option maxHeartbeats 1000000

namespace Editor

/-- Press/release transition of a key event (winit `ElementState`). -/
inductive ElementState
  | Pressed
  | Released
deriving DecidableEq, Repr

/-- The named keys from winit (`winit::keyboard::NamedKey`) that the match in
`App::window_event` distinguishes; `OtherNamed` stands for every other named
key, handled by the wildcard arm at main.rs:215. -/
inductive NamedKey
  | Backspace | Enter | Escape | Tab
  | ArrowDown | ArrowLeft | ArrowRight | ArrowUp
  | Control | Alt | Shift
  | End | Home | PageDown | PageUp
  | Copy | Cut | Delete | Paste | Space
  | F1 | F2 | F3 | F4 | F5 | F6 | F7 | F8 | F9 | F10
  | F11 | F12 | F13 | F14 | F15 | F16 | F17 | F18 | F19 | F20
  | F21 | F22 | F23 | F24 | F25 | F26 | F27 | F28 | F29 | F30
  | F31 | F32 | F33 | F34 | F35
  | OtherNamed
deriving DecidableEq, Repr

/-- winit `Key` as consumed by `App::window_event` (main.rs:149-221): a named
key, a character key carrying the reported string, or anything else (the
wildcard arm at main.rs:220, e.g. dead keys). -/
inductive LogicalKey
  | Named (nk : NamedKey)
  | Character (s : String)
  | OtherKey
deriving DecidableEq, Repr

/-- `tui_textarea::Key` as used in main.rs. -/
inductive Key
  | Char (c : Char)
  | Backspace | Enter | Esc | Tab
  | Down | Left | Right | Up
  | End | Home | PageDown | PageUp
  | Copy | Cut | Delete | Paste
  | F (n : Nat)
deriving DecidableEq, Repr

/-- `tui_textarea::Input`: the editing command handed to the text area at
main.rs:224-229, carrying the modifier snapshot. -/
structure Input where
  key : Key
  ctrl : Bool
  alt : Bool
  shift : Bool
deriving DecidableEq, Repr

/-- The three sticky modifiers tracked by the translator. -/
inductive Modifier
  | ctrl
  | alt
  | shift
deriving DecidableEq, Repr

/-- Outcome of the `event.logical_key` match in main.rs:149-221: a
`tui_textarea::Key` to forward, a modifier flag update plus early return
(main.rs:159-170), or an early return with no effect (main.rs:215, 220). -/
inductive KeyLookup
  | mapped (k : Key)
  | modifier (m : Modifier)
  | ignored
deriving DecidableEq, Repr

/-- Transcription of the key-identity match in `App::window_event`,
main.rs:149-221. -/
def translate_key : LogicalKey → KeyLookup
  | .Named nk =>
    match nk with
    | .Backspace => .mapped .Backspace
    | .Enter => .mapped .Enter
    | .Escape => .mapped .Esc
    | .Tab => .mapped .Tab
    | .ArrowDown => .mapped .Down
    | .ArrowLeft => .mapped .Left
    | .ArrowRight => .mapped .Right
    | .ArrowUp => .mapped .Up
    | .Control => .modifier .ctrl
    | .Alt => .modifier .alt
    | .Shift => .modifier .shift
    | .End => .mapped .End
    | .Home => .mapped .Home
    | .PageDown => .mapped .PageDown
    | .PageUp => .mapped .PageUp
    | .Copy => .mapped .Copy
    | .Cut => .mapped .Cut
    | .Delete => .mapped .Delete
    | .Paste => .mapped .Paste
    | .Space => .mapped (.Char ' ')
    | .F1 => .mapped (.F 1)
    | .F2 => .mapped (.F 2)
    | .F3 => .mapped (.F 3)
    | .F4 => .mapped (.F 4)
    | .F5 => .mapped (.F 5)
    | .F6 => .mapped (.F 6)
    | .F7 => .mapped (.F 7)
    | .F8 => .mapped (.F 8)
    | .F9 => .mapped (.F 9)
    | .F10 => .mapped (.F 10)
    | .F11 => .mapped (.F 11)
    | .F12 => .mapped (.F 12)
    | .F13 => .mapped (.F 13)
    | .F14 => .mapped (.F 14)
    | .F15 => .mapped (.F 15)
    | .F16 => .mapped (.F 16)
    | .F17 => .mapped (.F 17)
    | .F18 => .mapped (.F 18)
    | .F19 => .mapped (.F 19)
    | .F20 => .mapped (.F 20)
    | .F21 => .mapped (.F 21)
    | .F22 => .mapped (.F 22)
    | .F23 => .mapped (.F 23)
    | .F24 => .mapped (.F 24)
    | .F25 => .mapped (.F 25)
    | .F26 => .mapped (.F 26)
    | .F27 => .mapped (.F 27)
    | .F28 => .mapped (.F 28)
    | .F29 => .mapped (.F 29)
    | .F30 => .mapped (.F 30)
    | .F31 => .mapped (.F 31)
    | .F32 => .mapped (.F 32)
    | .F33 => .mapped (.F 33)
    | .F34 => .mapped (.F 34)
    | .F35 => .mapped (.F 35)
    | .OtherNamed => .ignored
  | .Character s => .mapped (.Char (s.toList.headD (Char.ofNat 0)))
  | .OtherKey => .ignored

/-- The fields of `struct App` that the keyboard path of `window_event` reads
or writes: the optional backend (`backend: Rc<RefCell<Option<Terminal<..>>>>`,
`none` until the async setup at main.rs:85-130 completes), the three modifier
flags, and the text area modelled abstractly as the list of `Input` commands
it has received via `self.ed.input(..)`. -/
structure AppState where
  backend : Option Unit
  ctrl_down : Bool
  alt_down : Bool
  shift_down : Bool
  ed : List Input
deriving DecidableEq, Repr

/-- Observable outcome of one `window_event` call: the new `App` state, the
editing commands forwarded to the text area during the call (always zero or
one), and whether `request_redraw` (main.rs:240) was reached — the early
`return`s at main.rs:141, 161, 165, 169, 215 and 220 skip it. -/
structure EventResult where
  state : AppState
  emitted : List Input
  redraw_requested : Bool
deriving DecidableEq, Repr

/-- The window events `window_event` distinguishes (main.rs:144-238);
`OtherEvent` is the wildcard arm at main.rs:237. -/
inductive WindowEvent
  | Resized (width height : Nat)
  | KeyboardInput (logical_key : LogicalKey) (state : ElementState)
  | RedrawRequested
  | OtherEvent
deriving DecidableEq, Repr

/-- The keyboard branch of `window_event` after key translation: modifier arms
set their flag to `state == Pressed` and return early (main.rs:159-170);
ignored arms return early (main.rs:215, 220); mapped keys are forwarded to
the text area only on press (main.rs:223-230), then fall through to the
redraw request. -/
def apply_key (s : AppState) (kl : KeyLookup) (st : ElementState) : EventResult :=
  match kl with
  | .modifier .ctrl => ⟨{ s with ctrl_down := decide (st = ElementState.Pressed) }, [], false⟩
  | .modifier .alt => ⟨{ s with alt_down := decide (st = ElementState.Pressed) }, [], false⟩
  | .modifier .shift => ⟨{ s with shift_down := decide (st = ElementState.Pressed) }, [], false⟩
  | .ignored => ⟨s, [], false⟩
  | .mapped k =>
    if st = ElementState.Pressed then
      let inp : Input := ⟨k, s.ctrl_down, s.alt_down, s.shift_down⟩
      ⟨{ s with ed := s.ed ++ [inp] }, [inp], true⟩
    else
      ⟨s, [], true⟩

/-- `App::window_event` (main.rs:133-241). If the backend is not yet
initialized the whole event is dropped (main.rs:139-142). `Resized`,
`RedrawRequested` and other events only touch external collaborators and then
request a redraw. -/
def window_event (s : AppState) (ev : WindowEvent) : EventResult :=
  match s.backend with
  | none => ⟨s, [], false⟩
  | some _ =>
    match ev with
    | .Resized _ _ => ⟨s, [], true⟩
    | .KeyboardInput lk st => apply_key s (translate_key lk) st
    | .RedrawRequested => ⟨s, [], true⟩
    | .OtherEvent => ⟨s, [], true⟩

/-- Which named key carries a given modifier. -/
def modNamedKey : Modifier → NamedKey
  | .ctrl => .Control
  | .alt => .Alt
  | .shift => .Shift

/-- Read one modifier flag of the app state. -/
def modFlag (s : AppState) : Modifier → Bool
  | .ctrl => s.ctrl_down
  | .alt => s.alt_down
  | .shift => s.shift_down

/-- One replay step: deliver a modifier press/release event. -/
def modStep (s : AppState) (p : Modifier × ElementState) : AppState :=
  (window_event s (WindowEvent.KeyboardInput (LogicalKey.Named (modNamedKey p.1)) p.2)).state

/-- The app state right after backend initialization: all modifier flags
false (main.rs:66-68), no commands received yet. -/
def initApp : AppState := ⟨some (), false, false, false, []⟩

/-- Replay a sequence of modifier press/release events from the initial
state. -/
def replayMods (evs : List (Modifier × ElementState)) : AppState :=
  evs.foldl modStep initApp

/-- Specification-side oracle: was the most recent event for modifier `m` in
`evs` a press? `false` when `m` never occurs. -/
def lastIsPress (m : Modifier) (evs : List (Modifier × ElementState)) : Bool :=
  match evs.reverse.find? (fun p => decide (p.1 = m)) with
  | some p => decide (p.2 = ElementState.Pressed)
  | none => false

/-- Modelled from the spec: the selection-aware line renderer's input unit, a
grapheme cluster with its display width in cells; the renderer source file is
not present under `src/`. -/
structure Cluster where
  text : String
  width : Nat
deriving DecidableEq, Repr

/-- Modelled from the spec: a styled run — a sequence of grapheme clusters
with one reversed-video flag (spec §3, StyledRun). -/
structure StyledRun where
  text : List Cluster
  reversed : Bool
deriving DecidableEq, Repr

/-- Modelled from the spec: a StyledLine is the ordered runs of one line. -/
abbrev StyledLine := List StyledRun

/-- Modelled from the spec: counter advance per cluster — "the cluster's
display width, with a floor of 1 cell even for zero-width clusters"
(spec §4.2 step 4). -/
def effWidth (cl : Cluster) : Nat := max cl.width 1

/-- Modelled from the spec: "append one synthetic trailing cell (a single
space) after the line's real graphemes" (spec §4.2 step 3). -/
def synthCell : Cluster := ⟨" ", 1⟩

/-- Modelled from the spec: total display width of a line's real graphemes
under the floor-of-1 rule. -/
def cellLen (line : List Cluster) : Nat := (line.map effWidth).sum

/-- Modelled from the spec: tag each cell of a line with its selection
membership `lo ≤ counter ∧ counter < hi`, threading the running whole-text
display-cell counter (spec §4.2 steps 2 and 4); returns the tagged cells and
the counter value after the line. -/
def tagCells (lo hi : Nat) : Nat → List Cluster → List (Cluster × Bool) × Nat
  | c, [] => ([], c)
  | c, cl :: rest =>
    let t := tagCells lo hi (c + effWidth cl) rest
    ((cl, decide (lo ≤ c ∧ c < hi)) :: t.1, t.2)

/-- Modelled from the spec: coalesce consecutive same-membership cells into
maximal runs, in order (spec §4.2 steps 4 and 5: a run is closed exactly when
membership changes, and the last run is flushed at line end). -/
def coalesce : List (Cluster × Bool) → List StyledRun
  | [] => []
  | (cl, b) :: rest =>
    match coalesce rest with
    | [] => [⟨[cl], b⟩]
    | r :: rs => if r.reversed = b then ⟨cl :: r.text, b⟩ :: rs else ⟨[cl], b⟩ :: r :: rs

/-- Modelled from the spec: render one line given the incoming counter —
append the synthetic trailing cell, tag, coalesce; also return the counter
for the next line (spec §4.2 steps 3-5). -/
def renderLine (lo hi c : Nat) (line : List Cluster) : StyledLine × Nat :=
  let t := tagCells lo hi c (line ++ [synthCell])
  (coalesce t.1, t.2)

/-- Modelled from the spec: render all lines with the single running counter,
never reset between lines (spec §4.2 step 2). -/
def renderLines (lo hi : Nat) : Nat → List (List Cluster) → List StyledLine
  | _, [] => []
  | c, l :: rest =>
    let r := renderLine lo hi c l
    r.1 :: renderLines lo hi r.2 rest

/-- Modelled from the spec: the full renderer — normalize the selection to
`lo = min start stop`, `hi = max start stop`, widen a degenerate caret to one
cell (`hi = lo + 1` when `lo = hi`, spec §4.2 step 1), then render the lines
from counter 0. -/
def renderText (lines : List (List Cluster)) (start stop : Nat) : List StyledLine :=
  let lo := min start stop
  let hi0 := max start stop
  let hi := if lo = hi0 then lo + 1 else hi0
  renderLines lo hi 0 lines

example : translate_key (.Named .Space) = .mapped (.Char ' ') := rfl
example : translate_key (.Character "ab") = .mapped (.Char 'a') := by decide
example : translate_key (.Character "") = .mapped (.Char (Char.ofNat 0)) := by decide
example :
    replayMods [(Modifier.ctrl, .Pressed), (Modifier.ctrl, .Released)] =
      ⟨some (), false, false, false, []⟩ := by decide
example : lastIsPress .ctrl [(Modifier.ctrl, .Pressed), (Modifier.ctrl, .Released)] = false := by
  decide

example :
    renderText [[⟨"a", 1⟩, ⟨"b", 1⟩, ⟨"c", 1⟩]] 1 1 =
      [[⟨[⟨"a", 1⟩], false⟩, ⟨[⟨"b", 1⟩], true⟩, ⟨[⟨"c", 1⟩, synthCell], false⟩]] := by
  decide

example :
    renderText [[⟨"a", 1⟩, ⟨"b", 1⟩], [⟨"c", 1⟩, ⟨"d", 1⟩]] 2 4 =
      [[⟨[⟨"a", 1⟩, ⟨"b", 1⟩], false⟩, ⟨[synthCell], true⟩],
       [⟨[⟨"c", 1⟩], true⟩, ⟨[⟨"d", 1⟩, synthCell], false⟩]] := by
  decide

example : renderText [[⟨"🐭", 2⟩]] 1 1 = [[⟨[⟨"🐭", 2⟩, synthCell], false⟩]] := by decide

example : renderText [[]] 0 0 = [[⟨[synthCell], true⟩]] := by decide

/-- One-step unfolding of `tagCells` on a cons cell, first component. -/
theorem tagCells_cons_fst (lo hi c : Nat) (cl : Cluster) (rest : List Cluster) :
    (tagCells lo hi c (cl :: rest)).1 =
      (cl, decide (lo ≤ c ∧ c < hi)) :: (tagCells lo hi (c + effWidth cl) rest).1 := rfl

/-- One-step unfolding of `tagCells` on a cons cell, counter component. -/
theorem tagCells_cons_snd (lo hi c : Nat) (cl : Cluster) (rest : List Cluster) :
    (tagCells lo hi c (cl :: rest)).2 = (tagCells lo hi (c + effWidth cl) rest).2 := rfl

/-- The styled runs of a rendered line come from the line's graphemes plus
the synthetic trailing cell. -/
theorem renderLine_fst (lo hi c : Nat) (line : List Cluster) :
    (renderLine lo hi c line).1 = coalesce (tagCells lo hi c (line ++ [synthCell])).1 := rfl

/-- The counter after a rendered line is the tag counter over the line's
cells. -/
theorem renderLine_snd (lo hi c : Nat) (line : List Cluster) :
    (renderLine lo hi c line).2 = (tagCells lo hi c (line ++ [synthCell])).2 := rfl

/-- Tagging advances the counter by the line's total effective width. -/
theorem tagCells_snd_counter (lo hi : Nat) (cells : List Cluster) :
    ∀ c, (tagCells lo hi c cells).2 = c + cellLen cells := by
  induction cells with
  | nil => intro c; simp [tagCells, cellLen]
  | cons cl rest ih =>
    intro c
    rw [tagCells_cons_snd, ih]
    simp [cellLen]
    omega

/-- Every cell tagged from a counter at or past `hi` is outside the
selection. -/
theorem tagCells_flags_false_of_le (lo hi : Nat) (cells : List Cluster) :
    ∀ c, hi ≤ c → ∀ p ∈ (tagCells lo hi c cells).1, p.2 = false := by
  induction cells with
  | nil => intro c _ p hp; cases hp
  | cons cl rest ih =>
    intro c hc p hp
    rw [tagCells_cons_fst] at hp
    rcases List.mem_cons.mp hp with h1 | h1
    · subst h1
      simp only [decide_eq_false_iff_not]
      omega
    · exact ih (c + effWidth cl) (by omega) p h1

/-- Coalescing cells that are all outside the selection yields only
non-reversed runs. -/
theorem coalesce_all_false (l : List (Cluster × Bool)) :
    (∀ p ∈ l, p.2 = false) → ∀ r ∈ coalesce l, r.reversed = false := by
  induction l with
  | nil => intro _ r hr; cases hr
  | cons p rest ih =>
    intro h r hr
    obtain ⟨cl, b⟩ := p
    have hb : b = false := h (cl, b) (List.mem_cons_self _ _)
    subst hb
    have hrest : ∀ q ∈ rest, q.2 = false := fun q hq => h q (List.mem_cons_of_mem _ hq)
    simp only [coalesce] at hr
    cases hc : coalesce rest with
    | nil =>
      rw [hc] at hr
      simp at hr
      subst hr
      rfl
    | cons r0 rs =>
      rw [hc] at hr
      have h0 : r0.reversed = false :=
        ih hrest r0 (by rw [hc]; exact List.mem_cons_self _ _)
      simp [h0] at hr
      rcases hr with h1 | h1
      · rw [h1]
      · exact ih hrest r (by rw [hc]; exact List.mem_cons_of_mem _ h1)

/-- Coalescing all-outside cells yields no reversed run at all. -/
theorem coalesce_filter_all_false (l : List (Cluster × Bool))
    (h : ∀ p ∈ l, p.2 = false) :
    (coalesce l).filter (fun r => r.reversed) = [] := by
  rw [List.filter_eq_nil_iff]
  intro r hr
  simp [coalesce_all_false l h r hr]

/-- A leading outside cell never contributes a reversed run. -/
theorem coalesce_filter_cons_false (cl : Cluster) (l : List (Cluster × Bool)) :
    (coalesce ((cl, false) :: l)).filter (fun r => r.reversed) =
      (coalesce l).filter (fun r => r.reversed) := by
  simp only [coalesce]
  cases hc : coalesce l with
  | nil => simp
  | cons r0 rs =>
    cases hrv : r0.reversed
    · simp [List.filter_cons, hrv]
    · simp [List.filter_cons, hrv]

/-- A single inside cell followed by outside cells yields exactly one reversed
run, holding exactly that cell. -/
theorem coalesce_filter_cons_true (cl : Cluster) (l : List (Cluster × Bool))
    (h : ∀ p ∈ l, p.2 = false) :
    (coalesce ((cl, true) :: l)).filter (fun r => r.reversed) = [⟨[cl], true⟩] := by
  simp only [coalesce]
  cases hc : coalesce l with
  | nil => simp
  | cons r0 rs =>
    have h0 : r0.reversed = false :=
      coalesce_all_false l h r0 (by rw [hc]; exact List.mem_cons_self _ _)
    have hfl : (r0 :: rs).filter (fun r => r.reversed) = [] := by
      rw [← hc]; exact coalesce_filter_all_false l h
    simp [h0, List.filter_cons, hfl]

/-- Core caret lemma: over cells of effective width one, a widened caret
`[k, k+1)` with `k` inside the cell span produces exactly one reversed run of
exactly one cell. -/
theorem caret_filter_one (k : Nat) (cells : List Cluster) :
    ∀ c, (∀ cl ∈ cells, effWidth cl = 1) → c ≤ k → k < c + cells.length →
      ∃ cl, cl ∈ cells ∧
        (coalesce (tagCells k (k + 1) c cells).1).filter (fun r => r.reversed) =
          [⟨[cl], true⟩] := by
  induction cells with
  | nil =>
    intro c _ hck hk
    simp only [List.length_nil] at hk
    omega
  | cons cl rest ih =>
    intro c hw hck hk
    have hw1 : effWidth cl = 1 := hw cl (List.mem_cons_self _ _)
    rw [tagCells_cons_fst]
    by_cases hceq : c = k
    · subst hceq
      have hflag : decide (c ≤ c ∧ c < c + 1) = true := by simp
      rw [hflag]
      have hall : ∀ p ∈ (tagCells c (c + 1) (c + effWidth cl) rest).1, p.2 = false :=
        tagCells_flags_false_of_le c (c + 1) rest (c + effWidth cl) (by omega)
      exact ⟨cl, List.mem_cons_self _ _, coalesce_filter_cons_true cl _ hall⟩
    · have hflag : decide (k ≤ c ∧ c < k + 1) = false := by
        simp only [decide_eq_false_iff_not]
        omega
      rw [hflag, coalesce_filter_cons_false]
      simp only [List.length_cons] at hk
      obtain ⟨cl', hmem, heq⟩ :=
        ih (c + effWidth cl) (fun x hx => hw x (List.mem_cons_of_mem _ hx))
          (by omega) (by omega)
      exact ⟨cl', List.mem_cons_of_mem _ hmem, heq⟩

/-- Coalescing a nonempty cell list yields at least one run. -/
theorem coalesce_ne_nil (l : List (Cluster × Bool)) (h : l ≠ []) : coalesce l ≠ [] := by
  cases l with
  | nil => exact absurd rfl h
  | cons p rest =>
    obtain ⟨cl, b⟩ := p
    simp only [coalesce]
    cases coalesce rest with
    | nil => simp
    | cons r0 rs => by_cases hrv : r0.reversed = b <;> simp [hrv]

/-- The cells of a line are never empty: the synthetic cell is always there. -/
theorem tagCells_append_synth_ne_nil (lo hi c : Nat) (l : List Cluster) :
    (tagCells lo hi c (l ++ [synthCell])).1 ≠ [] := by
  cases l with
  | nil => simp [tagCells_cons_fst]
  | cons x xs => simp [tagCells_cons_fst]

/-- Every styled line produced by `renderLines` holds at least one run. -/
theorem renderLines_mem_ne_nil (lo hi : Nat) (lines : List (List Cluster)) :
    ∀ c, ∀ sl ∈ renderLines lo hi c lines, sl ≠ [] := by
  induction lines with
  | nil => intro c sl h; cases h
  | cons l rest ih =>
    intro c sl h
    rw [renderLines] at h
    rcases List.mem_cons.mp h with h1 | h1
    · subst h1
      rw [renderLine_fst]
      exact coalesce_ne_nil _ (tagCells_append_synth_ne_nil lo hi c l)
    · exact ih _ sl h1

/-- `modStep` never changes the backend handle. -/
theorem modStep_backend (s : AppState) (p : Modifier × ElementState) :
    (modStep s p).backend = s.backend := by
  obtain ⟨m, st⟩ := p
  cases hb : s.backend <;>
    cases m <;>
      simp [modStep, window_event, translate_key, modNamedKey, apply_key, hb]

/-- Replaying modifier events never changes the backend handle. -/
theorem foldl_modStep_backend (evs : List (Modifier × ElementState)) :
    ∀ s : AppState, (evs.foldl modStep s).backend = s.backend := by
  induction evs with
  | nil => intro s; rfl
  | cons p rest ih => intro s; rw [List.foldl_cons, ih, modStep_backend]

/-- Effect of one modifier event on one flag, with the backend initialized:
last-event-wins on its own flag, other flags untouched. -/
theorem modStep_flag (s : AppState) (hb : s.backend = some ()) (m mq : Modifier)
    (st : ElementState) :
    modFlag (modStep s (mq, st)) m =
      if mq = m then decide (st = ElementState.Pressed) else modFlag s m := by
  cases mq <;> cases m <;>
    simp [modStep, window_event, translate_key, modNamedKey, apply_key, modFlag, hb]

/-- Folding modifier events from any initialized state: each flag ends at the
polarity of the most recent event for that key, or its starting value if the
key never occurs. -/
theorem replay_foldl_flag (m : Modifier) (evs : List (Modifier × ElementState)) :
    ∀ s : AppState, s.backend = some () →
      modFlag (evs.foldl modStep s) m =
        ((evs.reverse.find? (fun p => decide (p.1 = m))).map
          (fun p => decide (p.2 = ElementState.Pressed))).getD (modFlag s m) := by
  induction evs using List.reverseRecOn with
  | nil => intro s hb; rfl
  | append_singleton evs p ih =>
    intro s hb
    obtain ⟨mq, st⟩ := p
    rw [List.foldl_append]
    have hb2 : (evs.foldl modStep s).backend = some () := by
      rw [foldl_modStep_backend]; exact hb
    simp only [List.foldl_cons, List.foldl_nil]
    rw [modStep_flag (evs.foldl modStep s) hb2 m mq st]
    by_cases hmq : mq = m
    · subst hmq
      simp [List.reverse_append]
    · rw [if_neg hmq, ih s hb]
      congr 1
      simp [List.reverse_append, List.find?_cons, hmq]

/-- C1: a Ctrl/Alt/Shift key event sets exactly its own modifier flag to
"transition is press", emits no editing command and leaves the text area
untouched; replaying any sequence of modifier events from the all-false
initial state leaves each flag equal to "the most recent event for that key
was a press", independent of the other keys. -/
theorem C1_modifier_tracking :
    (∀ (c a sh : Bool) (ed : List Input) (m : Modifier) (st : ElementState),
      (window_event ⟨some (), c, a, sh, ed⟩
          (WindowEvent.KeyboardInput (LogicalKey.Named (modNamedKey m)) st)).emitted = [] ∧
      (window_event ⟨some (), c, a, sh, ed⟩
          (WindowEvent.KeyboardInput (LogicalKey.Named (modNamedKey m)) st)).state.ed = ed ∧
      modFlag (window_event ⟨some (), c, a, sh, ed⟩
          (WindowEvent.KeyboardInput (LogicalKey.Named (modNamedKey m)) st)).state m =
        decide (st = ElementState.Pressed) ∧
      (∀ mq, mq ≠ m →
        modFlag (window_event ⟨some (), c, a, sh, ed⟩
            (WindowEvent.KeyboardInput (LogicalKey.Named (modNamedKey m)) st)).state mq =
          modFlag ⟨some (), c, a, sh, ed⟩ mq)) ∧
    (∀ (evs : List (Modifier × ElementState)) (m : Modifier),
      modFlag (replayMods evs) m = lastIsPress m evs) := by
  constructor
  · intro c a sh ed m st
    refine ⟨?_, ?_, ?_, ?_⟩
    · cases m <;> rfl
    · cases m <;> rfl
    · cases m <;> rfl
    · intro mq hne
      cases m <;> cases mq <;> first | exact absurd rfl hne | rfl
  · intro evs m
    rw [replayMods, replay_foldl_flag m evs initApp rfl]
    have hinit : modFlag initApp m = false := by cases m <;> rfl
    rw [hinit]
    unfold lastIsPress
    cases hf : evs.reverse.find? (fun p => decide (p.1 = m)) <;> simp [hf]

/-- Witness for C1 at a concrete input: Ctrl press then Ctrl release leaves
the ctrl flag false, and a Ctrl press leaves the alt flag unchanged. -/
theorem C1_modifier_tracking_witness :
    modFlag (replayMods [(Modifier.ctrl, ElementState.Pressed),
        (Modifier.ctrl, ElementState.Released)]) Modifier.ctrl =
      lastIsPress Modifier.ctrl [(Modifier.ctrl, ElementState.Pressed),
        (Modifier.ctrl, ElementState.Released)] ∧
    modFlag (window_event ⟨some (), false, false, false, []⟩
        (WindowEvent.KeyboardInput (LogicalKey.Named (modNamedKey Modifier.ctrl))
          ElementState.Pressed)).state Modifier.alt =
      modFlag ⟨some (), false, false, false, []⟩ Modifier.alt :=
  ⟨C1_modifier_tracking.2 [(Modifier.ctrl, ElementState.Pressed),
      (Modifier.ctrl, ElementState.Released)] Modifier.ctrl,
   (C1_modifier_tracking.1 false false false [] Modifier.ctrl ElementState.Pressed).2.2.2
      Modifier.alt (by decide)⟩

/-- C3: pressing any named key outside the modifier set (and outside the
unrecognized wildcard) emits exactly one editing command, obtained from the
key by the fixed lookup `translate_key` and carrying the current ctrl/alt/shift
snapshot. -/
theorem C3_named_key_press_emits_one (nk : NamedKey) (c a sh : Bool) (ed : List Input)
    (h1 : nk ≠ NamedKey.Control) (h2 : nk ≠ NamedKey.Alt) (h3 : nk ≠ NamedKey.Shift)
    (h4 : nk ≠ NamedKey.OtherNamed) :
    ∃ k, translate_key (LogicalKey.Named nk) = KeyLookup.mapped k ∧
      window_event ⟨some (), c, a, sh, ed⟩
          (WindowEvent.KeyboardInput (LogicalKey.Named nk) ElementState.Pressed) =
        ⟨⟨some (), c, a, sh, ed ++ [⟨k, c, a, sh⟩]⟩, [⟨k, c, a, sh⟩], true⟩ := by
  cases nk <;>
    first
    | exact absurd rfl h1
    | exact absurd rfl h2
    | exact absurd rfl h3
    | exact absurd rfl h4
    | exact ⟨_, rfl, rfl⟩

/-- Witness for C3 at a concrete input: Enter pressed with ctrl and shift
held. -/
theorem C3_named_key_press_emits_one_witness :
    ∃ k, translate_key (LogicalKey.Named NamedKey.Enter) = KeyLookup.mapped k ∧
      window_event ⟨some (), true, false, true, []⟩
          (WindowEvent.KeyboardInput (LogicalKey.Named NamedKey.Enter) ElementState.Pressed) =
        ⟨⟨some (), true, false, true, [] ++ [⟨k, true, false, true⟩]⟩,
         [⟨k, true, false, true⟩], true⟩ :=
  C3_named_key_press_emits_one NamedKey.Enter true false true []
    (by decide) (by decide) (by decide) (by decide)

/-- C4: releasing any non-modifier key emits no editing command and leaves the
application state (modifier flags and text area) unchanged. -/
theorem C4_nonmodifier_release_inert (lk : LogicalKey) (c a sh : Bool) (ed : List Input)
    (h : ∀ m, translate_key lk ≠ KeyLookup.modifier m) :
    (window_event ⟨some (), c, a, sh, ed⟩
        (WindowEvent.KeyboardInput lk ElementState.Released)).state = ⟨some (), c, a, sh, ed⟩ ∧
    (window_event ⟨some (), c, a, sh, ed⟩
        (WindowEvent.KeyboardInput lk ElementState.Released)).emitted = [] := by
  have he : window_event ⟨some (), c, a, sh, ed⟩
      (WindowEvent.KeyboardInput lk ElementState.Released) =
      apply_key ⟨some (), c, a, sh, ed⟩ (translate_key lk) ElementState.Released := rfl
  rw [he]
  cases hk : translate_key lk with
  | mapped k => exact ⟨rfl, rfl⟩
  | modifier m => exact absurd hk (h m)
  | ignored => exact ⟨rfl, rfl⟩

/-- Witness for C4 at a concrete input: Enter released with all modifiers
held. -/
theorem C4_nonmodifier_release_inert_witness :
    (window_event ⟨some (), true, true, true, []⟩
        (WindowEvent.KeyboardInput (LogicalKey.Named NamedKey.Enter) ElementState.Released)).state =
      ⟨some (), true, true, true, []⟩ ∧
    (window_event ⟨some (), true, true, true, []⟩
        (WindowEvent.KeyboardInput (LogicalKey.Named NamedKey.Enter)
          ElementState.Released)).emitted = [] :=
  C4_nonmodifier_release_inert (LogicalKey.Named NamedKey.Enter) true true true []
    (by intro m; cases m <;> decide)

/-- C5: pressing a character key with a nonempty reported string emits exactly
one InsertChar command whose character is the first scalar value of the
string, with the current modifier snapshot. -/
theorem C5_character_press_inserts_first_scalar (str : String) (ch : Char) (c a sh : Bool)
    (ed : List Input) (h : str.toList.head? = some ch) :
    window_event ⟨some (), c, a, sh, ed⟩
        (WindowEvent.KeyboardInput (LogicalKey.Character str) ElementState.Pressed) =
      ⟨⟨some (), c, a, sh, ed ++ [⟨Key.Char ch, c, a, sh⟩]⟩,
       [⟨Key.Char ch, c, a, sh⟩], true⟩ := by
  have hk : translate_key (LogicalKey.Character str) = KeyLookup.mapped (Key.Char ch) := by
    show KeyLookup.mapped (Key.Char (str.toList.headD (Char.ofNat 0))) = _
    cases hl : str.toList with
    | nil => rw [hl] at h; cases h
    | cons x xs =>
      rw [hl] at h
      simp only [List.head?_cons, Option.some.injEq] at h
      rw [h]
      rfl
  have he : window_event ⟨some (), c, a, sh, ed⟩
      (WindowEvent.KeyboardInput (LogicalKey.Character str) ElementState.Pressed) =
      apply_key ⟨some (), c, a, sh, ed⟩ (translate_key (LogicalKey.Character str))
        ElementState.Pressed := rfl
  rw [he, hk]
  rfl

/-- Witness for C5 at a concrete input: the character key "x". -/
theorem C5_character_press_inserts_first_scalar_witness :
    window_event ⟨some (), false, false, false, []⟩
        (WindowEvent.KeyboardInput (LogicalKey.Character "x") ElementState.Pressed) =
      ⟨⟨some (), false, false, false, [] ++ [⟨Key.Char 'x', false, false, false⟩]⟩,
       [⟨Key.Char 'x', false, false, false⟩], true⟩ :=
  C5_character_press_inserts_first_scalar "x" 'x' false false false [] (by decide)

/-- C6: a key event whose identity is neither a recognized named key nor a
character key emits no command and leaves the whole state unchanged, for
press and release alike; no redraw is requested (early return). -/
theorem C6_unrecognized_key_ignored (lk : LogicalKey) (st : ElementState) (c a sh : Bool)
    (ed : List Input) (h : translate_key lk = KeyLookup.ignored) :
    window_event ⟨some (), c, a, sh, ed⟩ (WindowEvent.KeyboardInput lk st) =
      ⟨⟨some (), c, a, sh, ed⟩, [], false⟩ := by
  show apply_key _ (translate_key lk) st = _
  rw [h]
  rfl

/-- Witness for C6 at a concrete input: an unmapped named key (wildcard arm)
pressed while alt is held. -/
theorem C6_unrecognized_key_ignored_witness :
    window_event ⟨some (), false, true, false, []⟩
        (WindowEvent.KeyboardInput (LogicalKey.Named NamedKey.OtherNamed)
          ElementState.Pressed) =
      ⟨⟨some (), false, true, false, []⟩, [], false⟩ :=
  C6_unrecognized_key_ignored (LogicalKey.Named NamedKey.OtherNamed) ElementState.Pressed
    false true false [] rfl

/-- C9: a character key event with an empty reported string is not ignored:
on press it emits InsertChar of the NUL character (Rust `char::default()`),
with the current modifier snapshot. -/
theorem C9_empty_character_string_inserts_nul (c a sh : Bool) (ed : List Input) :
    window_event ⟨some (), c, a, sh, ed⟩
        (WindowEvent.KeyboardInput (LogicalKey.Character "") ElementState.Pressed) =
      ⟨⟨some (), c, a, sh, ed ++ [⟨Key.Char (Char.ofNat 0), c, a, sh⟩]⟩,
       [⟨Key.Char (Char.ofNat 0), c, a, sh⟩], true⟩ := rfl

/-- C10: while the backend is still uninitialized (the async setup has not
completed), every window event is dropped whole: no state change, no command,
no redraw request — including modifier press/release events. -/
theorem C10_uninitialized_events_dropped (ev : WindowEvent) (c a sh : Bool) (ed : List Input) :
    window_event ⟨none, c, a, sh, ed⟩ ev = ⟨⟨none, c, a, sh, ed⟩, [], false⟩ := rfl

/-- C2 counterexample to the claim as stated: the line `"🐭"` is one cluster
of display width 2 (line length 2 cells), the caret position k = 1 satisfies
0 ≤ k ≤ 2, yet the rendered StyledLine contains zero reversed runs — the
counter jumps from 0 to 2 and never equals 1. -/
theorem C2_caret_counterexample :
    1 ≤ cellLen [Cluster.mk "🐭" 2] ∧
    (((renderText [[Cluster.mk "🐭" 2]] 1 1).headD []).filter
      (fun r => r.reversed)).length = 0 := by
  constructor
  · decide
  · rfl

/-- C2 (amended): for every line whose grapheme clusters each occupy one
display cell (width ≤ 1, hence effective width 1 under the floor rule) and
every caret position 0 ≤ k ≤ number of clusters, the renderer — after
normalizing and widening the degenerate selection (k, k) to [k, k+1) —
produces a StyledLine with exactly one reversed run, and that run holds
exactly one cell of effective width 1, never zero cells. -/
theorem C2_caret_one_cell_highlight (cs : List Cluster) (k : Nat)
    (hw : ∀ cl ∈ cs, cl.width ≤ 1) (hk : k ≤ cs.length) :
    ∃ cl sl, renderText [cs] k k = [sl] ∧
      sl.filter (fun r => r.reversed) = [⟨[cl], true⟩] ∧ effWidth cl = 1 := by
  have hw' : ∀ cl ∈ cs ++ [synthCell], effWidth cl = 1 := by
    intro cl hcl
    rcases List.mem_append.mp hcl with h1 | h1
    · exact Nat.max_eq_right (hw cl h1)
    · rw [List.mem_singleton.mp h1]; rfl
  have hlen : k < 0 + (cs ++ [synthCell]).length := by
    simp [List.length_append]
    omega
  obtain ⟨cl, hmem, hfilter⟩ :=
    caret_filter_one k (cs ++ [synthCell]) 0 hw' (Nat.zero_le k) hlen
  refine ⟨cl, coalesce (tagCells k (k + 1) 0 (cs ++ [synthCell])).1, ?_, hfilter, hw' cl hmem⟩
  simp [renderText, renderLines, renderLine]

/-- Witness for C2 at a concrete input: the one-cell line "a" with the caret
at end of line. -/
theorem C2_caret_one_cell_highlight_witness :
    ∃ cl sl, renderText [[Cluster.mk "a" 1]] 1 1 = [sl] ∧
      sl.filter (fun r => r.reversed) = [⟨[cl], true⟩] ∧ effWidth cl = 1 :=
  C2_caret_one_cell_highlight [Cluster.mk "a" 1] 1 (by decide) (by decide)

/-- C7: the display-cell counter runs continuously across the whole text —
rendering a line hands `incoming counter + line widths + 1` (the synthetic
cell) to the next line, and `renderLines` threads exactly that counter, never
resetting it; in particular for content "ab" / "cd" with global selection
(2, 4), line 1 spans cells [0,3), line 2 spans [3,6), and exactly the
synthetic cell 2 of line 1 and the character 'c' at cell 3 of line 2 render
reversed. -/
theorem C7_running_counter_and_scenario :
    (∀ (lo hi c : Nat) (line : List Cluster),
      (renderLine lo hi c line).2 = c + cellLen line + 1) ∧
    (∀ (lo hi c : Nat) (l : List Cluster) (rest : List (List Cluster)),
      renderLines lo hi c (l :: rest) =
        (renderLine lo hi c l).1 :: renderLines lo hi (renderLine lo hi c l).2 rest) ∧
    renderText [[⟨"a", 1⟩, ⟨"b", 1⟩], [⟨"c", 1⟩, ⟨"d", 1⟩]] 2 4 =
      [[⟨[⟨"a", 1⟩, ⟨"b", 1⟩], false⟩, ⟨[synthCell], true⟩],
       [⟨[⟨"c", 1⟩], true⟩, ⟨[⟨"d", 1⟩, synthCell], false⟩]] := by
  refine ⟨?_, ?_, by decide⟩
  · intro lo hi c line
    rw [renderLine_snd, tagCells_snd_counter]
    simp [cellLen, synthCell, effWidth]
    omega
  · intro lo hi c l rest
    rfl

/-- C8: every rendered line is built from the line's graphemes plus one
synthetic trailing space cell, so every StyledLine — including the one of an
empty line — holds at least one run, and a caret exactly at end of an empty
line is rendered as a reversed run over the synthetic cell. -/
theorem C8_synthetic_trailing_cell :
    (∀ (lo hi c : Nat) (line : List Cluster),
      (renderLine lo hi c line).1 = coalesce (tagCells lo hi c (line ++ [synthCell])).1) ∧
    (∀ (lines : List (List Cluster)) (start stop : Nat),
      ∀ sl ∈ renderText lines start stop, sl ≠ []) ∧
    renderText [[]] 0 0 = [[⟨[synthCell], true⟩]] := by
  refine ⟨fun _ _ _ _ => rfl, ?_, by decide⟩
  intro lines start stop sl h
  exact renderLines_mem_ne_nil _ _ lines 0 sl h

/-- Witness for C8 at a concrete input: the styled line of an empty line with
the caret at position 0 is nonempty. -/
theorem C8_synthetic_trailing_cell_witness :
    ([⟨[synthCell], true⟩] : StyledLine) ≠ [] :=
  C8_synthetic_trailing_cell.2.1 [[]] 0 0 [⟨[synthCell], true⟩] (by decide)

end Editor
